import Mathlib

/-!
Access-control engine of `southwinds-io/http` (`controls.go`, `middleware.go`)

A shallow embedding of the permission model (`Control`, `Controls`), of the
ACL parser (`newControls`, `newControl`), of the decision predicate
(`Controls.allowed`) and of the authentication and authorisation stages
(`Server.AuthenticationMiddleware`, `Server.AuthorisationMiddleware`), followed
by the properties established about them.

Go strings are embedded as `String`.  The functions of the Go standard library
that the source calls are embedded as follows:

* `strings.Trim` and `strings.Split` are defined here (on the runes of the
  string; the source only splits on the one-rune separators `,`, `:`, `|`);
* `strings.ToUpper`, `strings.EqualFold` and `regexp.MatchString` depend on the
  Unicode tables and on the regular-expression engine of the Go runtime, which
  are not part of the repository: they are the fields of `GoStd`, a parameter of
  every definition that reaches them.
-/

namespace Http

/-! ## The standard-library functions the source relies on -/

/-- The part of the Go standard library that `controls.go` uses and that is
not defined in the repository.

* `compiles p` : `regexp.Compile(p)` succeeds;
* `hasMatch p s` : the compiled pattern `p` has a match somewhere in `s`
  (`(*Regexp).MatchString`);
* `toUpperRune` : `unicode.ToUpper`;
* `equalFold` : `strings.EqualFold`, which is reflexive and symmetric. -/
structure GoStd where
  compiles : String → Bool
  hasMatch : String → String → Bool
  toUpperRune : Char → Char
  equalFold : String → String → Bool
  equalFold_refl : ∀ s, equalFold s s = true
  equalFold_symm : ∀ s t, equalFold s t = equalFold t s

/-- Go `regexp.MatchString(pattern, s)`: compile `pattern`; on failure return
`(false, err)`, otherwise `(re.MatchString(s), nil)`. -/
def regexpMatchString (G : GoStd) (pattern s : String) : Bool × Option String :=
  if G.compiles pattern then (G.hasMatch pattern s, none)
  else (false, some ("error parsing regexp: " ++ pattern))

/-- Go `strings.Trim(s, cutset)`: `s` without the leading and trailing runes
that occur in `cutset`. -/
def Trim (s cutset : String) : String :=
  String.mk
    (((s.data.dropWhile (fun r => cutset.data.contains r)).reverse.dropWhile
      (fun r => cutset.data.contains r)).reverse)

/-- Go `strings.ToUpper(s)`: every rune mapped by `unicode.ToUpper`. -/
def ToUpper (G : GoStd) (s : String) : String :=
  String.mk (s.data.map G.toUpperRune)

/-- Go `strings.Split(s, sep)` for a separator of one rune: the pieces of `s`
between the occurrences of `sep`; a string without `sep` (the empty string
included) gives the one-element list `[s]`. -/
def Split (s : String) (sep : Char) : List String :=
  (s.data.splitOn sep).map String.mk

/-! ## `Control` and `Controls` -/

/-- Go `type Control struct`: a permission rule. -/
structure Control where
  Realm : String
  URI : String
  Method : List String
  deriving DecidableEq, Repr

/-- Go `type Controls []Control`. -/
abbrev Controls := List Control

/-- Go `(c *Control) hasMethod(method)`: some entry of `c.Method` equals
`method` once both are trimmed of spaces and upper-cased. -/
def Control.hasMethod (G : GoStd) (c : Control) (method : String) : Bool :=
  c.Method.any (fun m => ToUpper G (Trim m " ") == ToUpper G (Trim method " "))

/-- Go `equalMethods(a, b)`: same length and the same string at every index. -/
def equalMethods : List String → List String → Bool
  | [], [] => true
  | [], _ :: _ => false
  | _ :: _, [] => false
  | v :: a, w :: b => if v != w then false else equalMethods a b

/-- Go `(c *Control) equal(ctl)`. -/
def Control.equal (G : GoStd) (c ctl : Control) : Bool :=
  G.equalFold ctl.Realm c.Realm && ctl.URI == c.URI && equalMethods c.Method ctl.Method

/-- Go `(controls Controls) Add(ctl ...Control)`: `r` starts as `controls`; each
candidate `c` is appended to `r` unless an element of `controls` (the receiver)
is `equal` to it. -/
def Controls.Add (G : GoStd) (controls : Controls) (ctl : List Control) : Controls :=
  ctl.foldl
    (fun r c => if controls.any (fun control => control.equal G c) then r else r ++ [c])
    controls

/-- Go `(controls Controls) allowed(realm, uri, method)`: the first rule whose
three conditions hold returns `true`; `false` when the loop ends. -/
def Controls.allowed (G : GoStd) : Controls → String → String → String → Bool
  | [], _, _, _ => false
  | c :: rest, realm, uri, method =>
    let matched := (regexpMatchString G c.URI uri).1
    if (c.Realm == realm || c.Realm == "*") &&
        (matched || c.URI == "*") &&
        (c.hasMethod G method || c.hasMethod G "*") then true
    else Controls.allowed G rest realm uri method

/-! ## The ACL parser -/

/-- Go `newControl(ac)`: split on `:`; anything but three parts is an error and
gives the zero `Control`. -/
def newControl (ac : String) : Control × Option String :=
  match Split ac ':' with
  | [realm, uri, methods] =>
    ({ Realm := realm, URI := uri, Method := Split methods '|' }, none)
  | _ =>
    ({ Realm := "", URI := "", Method := [] },
      some ("Invalid control format '" ++ ac ++ "', it should be realm:uri:method\n"))

/-- The loop of `newControls` over the comma-separated parts: `result` holds
the rules parsed so far; the first failing part returns `nil` and the error. -/
def newControlsLoop : List String → Controls → Controls × Option String
  | [], result => (result, none)
  | part :: parts, result =>
    match newControl part with
    | (_, some err) => ([], some err)
    | (control, none) => newControlsLoop parts (result ++ [control])

/-- Go `newControls(acl)`: a blank `acl` gives the empty `Controls`; otherwise
every comma-separated part is parsed by `newControl`. -/
def newControls (acl : String) : Controls × Option String :=
  if (Trim acl " ").length == 0 then ([], none)
  else newControlsLoop (Split acl ',') []

/-! ## A concrete instance of the standard library -/

/-- A pattern without regular-expression metacharacters. -/
def isLiteralPattern (p : String) : Bool :=
  p.data.all (fun r => !("\\.+*?()|[]\x7b\x7d^$".data.contains r))

/-- An instance of `GoStd` for evaluating the definitions on concrete ASCII
input.  It agrees with the Go runtime on patterns made of literal characters
(they compile, and match the texts that contain them) and on the pattern `*`
(Go rejects it: "missing argument to repetition operator"); patterns with
other metacharacters are outside its scope and are rejected as well.
Upper-casing and case folding are those of the ASCII letters. -/
def asciiStd : GoStd where
  compiles := isLiteralPattern
  hasMatch := fun p s => s.data.tails.any (fun t => p.data.isPrefixOf t)
  toUpperRune := Char.toUpper
  equalFold := fun s t => s.data.map Char.toLower == t.data.map Char.toLower
  equalFold_refl := by intro s; simp
  equalFold_symm := by
    intro s t
    by_cases h : s.data.map Char.toLower = t.data.map Char.toLower
    · simp [h]
    · have h' : ¬ t.data.map Char.toLower = s.data.map Char.toLower := fun e => h e.symm
      simp [h, h']


/-! ## The middleware (`middleware.go`, `principal.go`) -/

/-- Go `strings.Contains(s, substr)`. -/
def Contains (s substr : String) : Bool :=
  s.data.tails.any (fun t => substr.data.isPrefixOf t)

/-- Go `isBrowser(userAgent)`. -/
def isBrowser (userAgent : String) : Bool :=
  let safari := Contains userAgent "Safari"
  let opera := Contains userAgent "OP"
  let edge := Contains userAgent "MSIE" || Contains userAgent "Edge"
  let firefox := Contains userAgent "Firefox"
  let chrome := Contains userAgent "Chrome"
  safari || opera || edge || firefox || chrome

/-- Go `type UserPrincipal struct`.  `Created` is a time stamp; the untyped
field `Context`, which the engine never reads, is left out. -/
structure UserPrincipal where
  Username : String
  Rights : Controls
  Created : Nat
  deriving DecidableEq, Repr

/-- What `r.Context().Value("User")` can be: no value, a `*UserPrincipal`
(possibly the nil pointer), or a value of another type. -/
inductive ContextValue where
  | absent
  | principal (p : Option UserPrincipal)
  | other
  deriving DecidableEq, Repr

/-- The parts of a `*http.Request` that the middleware reads: `r.Method`,
`r.URL.Path`, `r.RequestURI`, the headers `Authorization` and `User-Agent` as
returned by `r.Header.Get` (empty when missing), and the value of the context
under the key `"User"`. -/
structure Request where
  Method : String
  Path : String
  RequestURI : String
  Authorization : String
  UserAgent : String
  User : ContextValue
  deriving DecidableEq, Repr

/-- Go `r.WithContext(context.WithValue(r.Context(), "User", user))`: a copy of
the request whose context holds the pointer `user` under `"User"`. -/
def Request.WithUser (r : Request) (user : Option UserPrincipal) : Request :=
  { r with User := ContextValue.principal user }

/-- What a handler does, in order: its calls on the `http.ResponseWriter`, its
calls of authenticators and of the next handler.

* `setHeader k v` : `w.Header().Set(k, v)`;
* `writeHeader c` : `w.WriteHeader(c)`;
* `httpError msg c` : `http.Error(w, msg, c)`;
* `callAuth p` : call of the authenticator `s.Auth[p]`;
* `callDefaultAuth` : call of `s.DefaultAuth`;
* `next r` : the final handler is served the request `r`;
* `nilDereference` : run-time panic on a nil pointer. -/
inductive Event where
  | setHeader (key value : String)
  | writeHeader (code : Nat)
  | httpError (msg : String) (code : Nat)
  | callAuth (urlPattern : String)
  | callDefaultAuth
  | next (r : Request)
  | nilDereference
  deriving DecidableEq, Repr

/-- A `http.Handler`, as the events of `ServeHTTP(w, r)`. -/
abbrev Handler := Request → List Event

/-- An authenticator, `func(http.Request) (*UserPrincipal, error)`. -/
abbrev Authenticator := Request → Option UserPrincipal × Option String

/-- Modelled from the spec: the declaration of `Server` is not among the
sources.  These are the fields that `middleware.go` reads: the map `Auth` from
URL pattern to authenticator (possibly nil), given by its entries in the order
in which the `range` loop visits them (an order that Go leaves unspecified),
the optional `DefaultAuth`, and `realm`. -/
structure Server where
  Auth : List (String × Option Authenticator)
  DefaultAuth : Option Authenticator
  realm : String

/-- Go `http.MethodOptions`. -/
def MethodOptions : String := "OPTIONS"

/-- Go `http.StatusUnauthorized`. -/
def StatusUnauthorized : Nat := 401

/-- Go `http.StatusForbidden`. -/
def StatusForbidden : Nat := 403

/-- Go `http.StatusInternalServerError`. -/
def StatusInternalServerError : Nat := 500

/-- The variables `user`, `matched`, `err` of `AuthenticationMiddleware`. -/
structure AuthVars where
  user : Option UserPrincipal
  matched : Bool
  err : Option String

/-- The message of a rejection: `err.Error()` when there is an error,
`"Unauthorised"` otherwise. -/
def errMsg (err : Option String) : String :=
  match err with
  | some e => e
  | none => "Unauthorised"

/-- How the `range s.Auth` loop of `AuthenticationMiddleware` ends: the handler
returned from inside the loop, or the loop was left (by `break` or at its end)
with the given variables; both with the events so far. -/
inductive LoopResult where
  | returned (trace : List Event)
  | exited (vars : AuthVars) (trace : List Event)

/-- The `range s.Auth` loop of `AuthenticationMiddleware` over the entries still
to visit. -/
def authLoop (G : GoStd) (r : Request) :
    List (String × Option Authenticator) → AuthVars → LoopResult
  | [], vars => LoopResult.exited vars []
  | (urlPattern, authenticate) :: rest, vars =>
    let res := regexpMatchString G urlPattern r.Path
    let vars := { vars with matched := res.1, err := res.2 }
    if vars.err.isSome then
      LoopResult.returned [Event.httpError "Authentication Error" StatusInternalServerError]
    else if vars.matched then
      match authenticate with
      | some f =>
        let out := f r
        let vars := { vars with user := out.1, err := out.2 }
        match vars.user with
        | none =>
          LoopResult.returned
            [Event.callAuth urlPattern, Event.httpError (errMsg vars.err) StatusUnauthorized]
        | some _ => LoopResult.exited vars [Event.callAuth urlPattern]
      | none => LoopResult.exited vars []
    else authLoop G r rest vars

/-- Go `(s *Server) AuthenticationMiddleware(next)`. -/
def Server.AuthenticationMiddleware (G : GoStd) (s : Server) (next : Handler) : Handler :=
  fun r =>
    match authLoop G r s.Auth { user := none, matched := false, err := none } with
    | LoopResult.returned trace => trace
    | LoopResult.exited vars trace =>
      if vars.user.isNone && !vars.matched then
        match s.DefaultAuth with
        | some defaultAuth =>
          let trace := if r.Method == MethodOptions then trace ++ next r else trace
          if r.Authorization == "" && isBrowser r.UserAgent then
            trace ++
              [Event.setHeader "WWW-Authenticate" ("Basic realm=\"" ++ s.realm ++ "\""),
                Event.writeHeader StatusUnauthorized]
          else
            let out := defaultAuth r
            match out.1 with
            | none =>
              trace ++ [Event.callDefaultAuth, Event.httpError (errMsg out.2) StatusUnauthorized]
            | some user => trace ++ [Event.callDefaultAuth] ++ next (r.WithUser (some user))
        | none => trace ++ next (r.WithUser vars.user)
      else trace ++ next (r.WithUser vars.user)

/-- Modelled from the spec: `GetUserPrincipal` is not among the sources.  It
reads the identity stored in the request context under the identity key, and
gives nil when the context holds no identity. -/
def GetUserPrincipal (r : Request) : Option UserPrincipal :=
  match r.User with
  | ContextValue.principal (some p) => some p
  | _ => none

/-- Go `(controls Controls) RequestAllowed(realm, r)`.  The receiver is not
read: the rights are those of the principal found in the context.  `none`
stands for the panic of `value.Rights` on a nil `*UserPrincipal`. -/
def Controls.RequestAllowed (G : GoStd) (_controls : Controls) (realm : String)
    (r : Request) : Option Bool :=
  match r.User with
  | ContextValue.absent => some false
  | ContextValue.principal (some value) =>
    some (Controls.allowed G value.Rights realm r.RequestURI r.Method)
  | ContextValue.principal none => none
  | ContextValue.other => some false

/-- Go `(s *Server) AuthorisationMiddleware(next)`. -/
def Server.AuthorisationMiddleware (G : GoStd) (s : Server) (next : Handler) : Handler :=
  fun r =>
    match GetUserPrincipal r with
    | none => [Event.writeHeader StatusForbidden]
    | some user =>
      match Controls.RequestAllowed G user.Rights s.realm r with
      | none => [Event.nilDereference]
      | some false => [Event.writeHeader StatusForbidden]
      | some true => next r

/-- A final handler that only records the request it is served. -/
def recordNext : Handler := fun r => [Event.next r]

/-- The status of the response after the given events: a `ResponseWriter`
keeps the code of the first `WriteHeader` (`http.Error` calls it) and ignores
the later ones. -/
def responseStatus : List Event → Option Nat
  | [] => none
  | Event.writeHeader code :: _ => some code
  | Event.httpError _ code :: _ => some code
  | _ :: rest => responseStatus rest

/-- An entry of `s.Auth` at which the loop of `AuthenticationMiddleware` stops
for the request `r`: its pattern does not compile, or matches the path. -/
def stopsLoop (G : GoStd) (r : Request) (entry : String × Option Authenticator) : Bool :=
  !G.compiles entry.1 || G.hasMatch entry.1 r.Path

/-! ## Definitions used to state the properties -/

/-- A sample identity, allowed `GET` on `/items` in the realm `app`. -/
def guest : UserPrincipal :=
  { Username := "guest", Rights := [⟨"app", "/items", ["GET"]⟩], Created := 0 }

/-- A sample authenticator that accepts every request as `guest`. -/
def acceptAsGuest : Authenticator := fun _ => (some guest, none)

/-- A sample authenticator that rejects every request with an error. -/
def rejectWithError : Authenticator := fun _ => (none, some "bad credentials")

/-- A sample authenticator that rejects every request without an error. -/
def rejectSilently : Authenticator := fun _ => (none, none)

/-- A sample request: `GET /items/5?page=2` from a client that is not a
browser, without credentials and without identity in its context. -/
def sampleRequest : Request :=
  { Method := "GET", Path := "/items/5", RequestURI := "/items/5?page=2",
    Authorization := "", UserAgent := "curl/8.0", User := ContextValue.absent }

/-- A sample request from a browser: as `sampleRequest`, with a `User-Agent`
that names Chrome. -/
def chromeRequest : Request :=
  { sampleRequest with UserAgent := "Mozilla/5.0 Chrome/120.0" }

/-- What the loop body of `AuthenticationMiddleware` does at an entry where
the loop stops. -/
def stopResult (r : Request) (compiles : Bool) (entry : String × Option Authenticator) :
    LoopResult :=
  if !compiles then
    LoopResult.returned [Event.httpError "Authentication Error" StatusInternalServerError]
  else
    match entry.2 with
    | none => LoopResult.exited { user := none, matched := true, err := none } []
    | some f =>
      match (f r).1 with
      | none =>
        LoopResult.returned
          [Event.callAuth entry.1, Event.httpError (errMsg (f r).2) StatusUnauthorized]
      | some user =>
        LoopResult.exited { user := some user, matched := true, err := (f r).2 }
          [Event.callAuth entry.1]

/-- The part of `AuthenticationMiddleware` that follows the loop. -/
def afterLoop (s : Server) (next : Handler) (r : Request) : LoopResult → List Event
  | LoopResult.returned trace => trace
  | LoopResult.exited vars trace =>
    if vars.user.isNone && !vars.matched then
      match s.DefaultAuth with
      | some defaultAuth =>
        let trace := if r.Method == MethodOptions then trace ++ next r else trace
        if r.Authorization == "" && isBrowser r.UserAgent then
          trace ++
            [Event.setHeader "WWW-Authenticate" ("Basic realm=\"" ++ s.realm ++ "\""),
              Event.writeHeader StatusUnauthorized]
        else
          let out := defaultAuth r
          match out.1 with
          | none =>
            trace ++ [Event.callDefaultAuth, Event.httpError (errMsg out.2) StatusUnauthorized]
          | some user => trace ++ [Event.callDefaultAuth] ++ next (r.WithUser (some user))
      | none => trace ++ next (r.WithUser vars.user)
    else trace ++ next (r.WithUser vars.user)


/-- The condition under which the loop body of `allowed` returns `true` for
the rule `c`. -/
def ruleAllows (G : GoStd) (c : Control) (realm uri method : String) : Bool :=
  (c.Realm == realm || c.Realm == "*") &&
    ((regexpMatchString G c.URI uri).1 || c.URI == "*") &&
    (c.hasMethod G method || c.hasMethod G "*")

/-- The invariant of `Controls`: no two elements at different positions are
`equal`. -/
def NoEqualPair (G : GoStd) (cs : Controls) : Prop :=
  cs.Pairwise (fun a b => a.equal G b = false)

/-- Go `strings.Join(parts, sep)` for a separator of one rune. -/
def Join (parts : List String) (sep : Char) : String :=
  String.mk ([sep].intercalate (parts.map String.data))

/-- The textual form of a rule given by the specification:
`realm:uri:m1|m2|...|mn`. -/
def renderControl (c : Control) : String :=
  c.Realm ++ ":" ++ c.URI ++ ":" ++ Join c.Method '|'

/-- The textual form of an ACL given by the specification: the entries joined
with `,`. -/
def renderControls (cs : Controls) : String :=
  Join (cs.map renderControl) ','

/-- The comparison key of a method in the words of the specification: leading
and trailing whitespace removed, case folded (on ASCII input). -/
def methodKeySpec (m : String) : String :=
  String.mk
    ((((m.data.dropWhile Char.isWhitespace).reverse.dropWhile Char.isWhitespace).reverse).map
      Char.toLower)

/-! ## Auxiliary facts about `allowed` -/


theorem allowed_nil (G : GoStd) (realm uri method : String) :
    Controls.allowed G [] realm uri method = false := by
  simp [Controls.allowed]

theorem allowed_cons (G : GoStd) (c : Control) (rest : Controls) (realm uri method : String) :
    Controls.allowed G (c :: rest) realm uri method =
      (ruleAllows G c realm uri method || Controls.allowed G rest realm uri method) := by
  simp only [Controls.allowed, ruleAllows]
  split <;> simp_all

theorem allowed_eq_any (G : GoStd) (cs : Controls) (realm uri method : String) :
    Controls.allowed G cs realm uri method = cs.any (fun c => ruleAllows G c realm uri method) := by
  induction cs with
  | nil => simp [allowed_nil]
  | cons c rest ih => simp [allowed_cons, ih]

theorem allowed_append (G : GoStd) (xs ys : Controls) (realm uri method : String) :
    Controls.allowed G (xs ++ ys) realm uri method =
      (Controls.allowed G xs realm uri method || Controls.allowed G ys realm uri method) := by
  simp [allowed_eq_any]

theorem regexpMatchString_fst (G : GoStd) (pattern s : String) :
    (regexpMatchString G pattern s).1 = (G.compiles pattern && G.hasMatch pattern s) := by
  unfold regexpMatchString
  by_cases h : G.compiles pattern = true <;> simp [h]

theorem ruleAllows_iff (G : GoStd) (c : Control) (realm uri method : String) :
    ruleAllows G c realm uri method = true ↔
      (c.Realm = realm ∨ c.Realm = "*") ∧
      (c.URI = "*" ∨ (G.compiles c.URI = true ∧ G.hasMatch c.URI uri = true)) ∧
      (c.hasMethod G method = true ∨ c.hasMethod G "*" = true) := by
  simp only [ruleAllows, regexpMatchString_fst, Bool.and_eq_true, Bool.or_eq_true, beq_iff_eq]
  tauto

/-! ## Properties of `allowed` -/

/-- C1: `allowed` is true exactly when some rule of the collection has a
matching realm (equal or `*`), a matching URI (the literal `*`, or a pattern
that compiles and matches) and a matching method (`hasMethod` of the method
or of `*`); a pattern that does not compile does not match. -/
theorem allowed_iff_exists_rule (G : GoStd) (cs : Controls) (realm uri method : String) :
    Controls.allowed G cs realm uri method = true ↔
      ∃ c ∈ cs,
        (c.Realm = realm ∨ c.Realm = "*") ∧
        (c.URI = "*" ∨ (G.compiles c.URI = true ∧ G.hasMatch c.URI uri = true)) ∧
        (c.hasMethod G method = true ∨ c.hasMethod G "*" = true) := by
  rw [allowed_eq_any, List.any_eq_true]
  constructor
  · rintro ⟨c, hc, h⟩
    exact ⟨c, hc, (ruleAllows_iff G c realm uri method).1 h⟩
  · rintro ⟨c, hc, h⟩
    exact ⟨c, hc, (ruleAllows_iff G c realm uri method).2 h⟩

/-- C2: `allowed` gives the same answer on every permutation of the
collection. -/
theorem allowed_perm (G : GoStd) (cs cs' : Controls) (realm uri method : String)
    (h : cs'.Perm cs) :
    Controls.allowed G cs' realm uri method = Controls.allowed G cs realm uri method := by
  rw [allowed_eq_any, allowed_eq_any, Bool.eq_iff_iff, List.any_eq_true, List.any_eq_true]
  constructor
  · rintro ⟨c, hc, hr⟩
    exact ⟨c, h.mem_iff.1 hc, hr⟩
  · rintro ⟨c, hc, hr⟩
    exact ⟨c, h.mem_iff.2 hc, hr⟩

/-- Witness of C2 on a two-rule collection and its reversal. -/
theorem allowed_perm_witness :
    ([⟨"b", "/y", ["PUT"]⟩, ⟨"a", "/x", ["GET"]⟩] : Controls).Perm
        [⟨"a", "/x", ["GET"]⟩, ⟨"b", "/y", ["PUT"]⟩] ∧
      Controls.allowed asciiStd [⟨"b", "/y", ["PUT"]⟩, ⟨"a", "/x", ["GET"]⟩] "a" "/x/1" "get" =
        Controls.allowed asciiStd [⟨"a", "/x", ["GET"]⟩, ⟨"b", "/y", ["PUT"]⟩] "a" "/x/1" "get" :=
  ⟨List.Perm.swap _ _ _, allowed_perm asciiStd _ _ "a" "/x/1" "get" (List.Perm.swap _ _ _)⟩

theorem hasMethod_of_mem (G : GoStd) (c : Control) (m : String) (h : m ∈ c.Method) :
    c.hasMethod G m = true := by
  unfold Control.hasMethod
  rw [List.any_eq_true]
  exact ⟨m, h, by simp⟩

/-- C3: a collection holding a rule with realm `*`, URI `*` and `*` among its
methods allows every realm, URI and method. -/
theorem allowed_of_wildcard_rule (G : GoStd) (cs : Controls) (c : Control)
    (hc : c ∈ cs) (hRealm : c.Realm = "*") (hURI : c.URI = "*") (hMethod : "*" ∈ c.Method)
    (realm uri method : String) :
    Controls.allowed G cs realm uri method = true := by
  rw [allowed_eq_any, List.any_eq_true]
  refine ⟨c, hc, ?_⟩
  rw [ruleAllows_iff]
  exact ⟨Or.inr hRealm, Or.inl hURI, Or.inr (hasMethod_of_mem G c "*" hMethod)⟩

/-- Witness of C3: the wildcard rule behind another rule; the pattern `*`
itself does not compile. -/
theorem allowed_of_wildcard_rule_witness :
    asciiStd.compiles "*" = false ∧
      Controls.allowed asciiStd [⟨"app", "/items", ["GET"]⟩, ⟨"*", "*", ["POST", "*"]⟩]
        "other" "/anything" "DELETE" = true :=
  ⟨by decide,
    allowed_of_wildcard_rule asciiStd _ ⟨"*", "*", ["POST", "*"]⟩ (by simp) rfl rfl (by simp)
      "other" "/anything" "DELETE"⟩

/-! ## Properties of `Add` -/

theorem equalMethods_eq_decide (a b : List String) : equalMethods a b = decide (a = b) := by
  induction a generalizing b with
  | nil => cases b <;> simp [equalMethods]
  | cons v a ih =>
    cases b with
    | nil => simp [equalMethods]
    | cons w b =>
      by_cases h : v = w <;> simp [equalMethods, ih, h]

theorem equal_self (G : GoStd) (c : Control) : c.equal G c = true := by
  simp [Control.equal, G.equalFold_refl, equalMethods_eq_decide]

/-- The loop of `Add` appends to `r` the candidates that have no `equal`
element in the receiver, in their order. -/
theorem add_foldl_eq (G : GoStd) (controls : Controls) (ctl : List Control) (r : Controls) :
    ctl.foldl
        (fun r c => if controls.any (fun control => control.equal G c) then r else r ++ [c]) r =
      r ++ ctl.filter (fun c => !controls.any (fun control => control.equal G c)) := by
  induction ctl generalizing r with
  | nil => simp
  | cons c ctl ih =>
    rw [List.foldl_cons, ih]
    by_cases h : controls.any (fun control => control.equal G c) = true
    · simp [h, List.filter_cons]
    · simp [h, List.filter_cons]

theorem add_eq_append_filter (G : GoStd) (controls : Controls) (ctl : List Control) :
    Controls.Add G controls ctl =
      controls ++ ctl.filter (fun c => !controls.any (fun control => control.equal G c)) :=
  add_foldl_eq G controls ctl controls

/-- After `Add`, every candidate has an `equal` element in the result. -/
theorem add_covers (G : GoStd) (controls : Controls) (ctl : List Control) (c : Control)
    (hc : c ∈ ctl) :
    (Controls.Add G controls ctl).any (fun control => control.equal G c) = true := by
  rw [add_eq_append_filter, List.any_append, Bool.or_eq_true]
  by_cases h : controls.any (fun control => control.equal G c) = true
  · exact Or.inl h
  · refine Or.inr ?_
    rw [List.any_eq_true]
    refine ⟨c, ?_, equal_self G c⟩
    rw [List.mem_filter]
    exact ⟨hc, by simp [h]⟩

/-- C4: `Add` is idempotent: adding the same candidates a second time returns
the collection unchanged (same length, same elements, same order). -/
theorem add_idempotent (G : GoStd) (cs : Controls) (L : List Control) :
    Controls.Add G (Controls.Add G cs L) L = Controls.Add G cs L := by
  have hnil :
      L.filter (fun c => !(Controls.Add G cs L).any (fun control => control.equal G c)) = [] := by
    rw [List.filter_eq_nil_iff]
    intro c hc
    simp [add_covers G cs L c hc]
  rw [add_eq_append_filter G (Controls.Add G cs L) L, hnil, List.append_nil]

/-- C5 (the code departs from it): on the empty collection, which satisfies
the invariant, `Add` of the same rule given twice returns the rule twice, and
the result breaks the invariant. -/
theorem add_keeps_duplicate_candidates (G : GoStd) :
    NoEqualPair G [] ∧
      Controls.Add G [] [⟨"app", "/items", ["GET"]⟩, ⟨"app", "/items", ["GET"]⟩] =
        [⟨"app", "/items", ["GET"]⟩, ⟨"app", "/items", ["GET"]⟩] ∧
      ¬ NoEqualPair G
          (Controls.Add G [] [⟨"app", "/items", ["GET"]⟩, ⟨"app", "/items", ["GET"]⟩]) := by
  refine ⟨List.Pairwise.nil, by simp [Controls.Add], ?_⟩
  simp [Controls.Add, NoEqualPair, equal_self]

/-! ## Auxiliary facts about `Trim` and `Split` -/

theorem intercalate_cons_cons {α : Type} (sep a b : List α) (tl : List (List α)) :
    sep.intercalate (a :: b :: tl) = a ++ sep ++ sep.intercalate (b :: tl) := by
  simp [List.intercalate, List.intersperse_cons_cons]

theorem mem_intercalate_singleton {α : Type} (x sep : α) (ls : List (List α))
    (h : x ∈ [sep].intercalate ls) : x = sep ∨ ∃ l ∈ ls, x ∈ l := by
  induction ls with
  | nil => simp [List.intercalate] at h
  | cons a tl ih =>
    cases tl with
    | nil =>
      simp [List.intercalate] at h
      exact Or.inr ⟨a, by simp, h⟩
    | cons b tl =>
      rw [intercalate_cons_cons] at h
      simp only [List.mem_append, List.mem_singleton] at h
      rcases h with (h | h) | h
      · exact Or.inr ⟨a, by simp, h⟩
      · exact Or.inl h
      · rcases ih h with h | ⟨l, hl, hx⟩
        · exact Or.inl h
        · exact Or.inr ⟨l, List.mem_cons_of_mem _ hl, hx⟩

theorem dropWhile_both_ends_eq_nil_iff {α : Type} (p : α → Bool) (l : List α) :
    ((l.dropWhile p).reverse.dropWhile p).reverse = [] ↔ ∀ x ∈ l, p x = true := by
  rw [List.reverse_eq_nil_iff, List.dropWhile_eq_nil_iff]
  constructor
  · intro h
    rw [← List.dropWhile_eq_nil_iff]
    by_contra hne
    have h1 := List.head_dropWhile_not p l hne
    have h2 := h _ (List.mem_reverse.2 (List.head_mem hne))
    simp [h1] at h2
  · intro h x hx
    exact h x ((List.dropWhile_sublist p).subset (List.mem_reverse.1 hx))

/-- `Trim s " "` is empty exactly when `s` is made of spaces only. -/
theorem trim_space_length_eq_zero_iff (s : String) :
    (Trim s " ").length = 0 ↔ ∀ r ∈ s.data, r = ' ' := by
  have hlen : (Trim s " ").length = (Trim s " ").data.length := rfl
  rw [hlen, List.length_eq_zero]
  unfold Trim
  rw [dropWhile_both_ends_eq_nil_iff]
  have hsp : (" " : String).data = [' '] := rfl
  simp [hsp]

/-! ## Properties of the parser -/

theorem newControl_error_iff (ac : String) :
    (newControl ac).2 ≠ none ↔ (Split ac ':').length ≠ 3 := by
  unfold newControl
  split
  · rename_i realm uri methods heq
    simp [heq]
  · rename_i hne
    simp only [ne_eq, reduceCtorEq, not_false_eq_true, true_iff]
    intro hlen
    match h : Split ac ':' with
    | [] => simp [h] at hlen
    | [_] => simp [h] at hlen
    | [_, _] => simp [h] at hlen
    | [a, b, c] => exact hne a b c h
    | _ :: _ :: _ :: _ :: _ => simp [h] at hlen

theorem newControlsLoop_error_iff (parts : List String) (result : Controls) :
    (newControlsLoop parts result).2 ≠ none ↔ ∃ part ∈ parts, (Split part ':').length ≠ 3 := by
  induction parts generalizing result with
  | nil => simp [newControlsLoop]
  | cons part parts ih =>
    have hpart := newControl_error_iff part
    unfold newControlsLoop
    split
    · rename_i c err heq
      rw [heq] at hpart
      have h3 : (Split part ':').length ≠ 3 := hpart.1 (by simp)
      simp only [ne_eq, reduceCtorEq, not_false_eq_true, true_iff]
      exact ⟨part, by simp, h3⟩
    · rename_i control heq
      rw [heq] at hpart
      have h3 : ¬ (Split part ':').length ≠ 3 := fun h => (hpart.2 h) rfl
      rw [ih]
      constructor
      · rintro ⟨q, hq, hl⟩
        exact ⟨q, List.mem_cons_of_mem _ hq, hl⟩
      · rintro ⟨q, hq, hl⟩
        rcases List.mem_cons.1 hq with rfl | hq
        · exact absurd hl h3
        · exact ⟨q, hq, hl⟩

theorem newControlsLoop_error_nil (parts : List String) (result : Controls)
    (h : (newControlsLoop parts result).2 ≠ none) : (newControlsLoop parts result).1 = [] := by
  induction parts generalizing result with
  | nil => simp [newControlsLoop] at h
  | cons part parts ih =>
    unfold newControlsLoop at h ⊢
    split
    · rfl
    · rename_i control heq
      simp only [heq] at h
      exact ih _ h

/-- C6: on an `acl` that is not blank, `newControls` returns an error exactly
when some comma-separated entry does not split on `:` into three parts, and
with an error it returns no `Controls`. -/
theorem newControls_error_iff (acl : String) (h : (Trim acl " ").length ≠ 0) :
    ((newControls acl).2 ≠ none ↔ ∃ part ∈ Split acl ',', (Split part ':').length ≠ 3) ∧
      ((newControls acl).2 ≠ none → (newControls acl).1 = []) := by
  have hdef : newControls acl = newControlsLoop (Split acl ',') [] := by
    simp [newControls, h]
  rw [hdef]
  exact ⟨newControlsLoop_error_iff _ _, newControlsLoop_error_nil _ _⟩

/-- Witness of C6: `"a:b"` fails and returns no `Controls`. -/
theorem newControls_error_iff_witness :
    (Trim "a:b" " ").length ≠ 0 ∧ (newControls "a:b").2 ≠ none ∧ (newControls "a:b").1 = [] :=
  have h := newControls_error_iff "a:b" (by decide)
  have herr : (newControls "a:b").2 ≠ none := h.1.2 ⟨"a:b", by decide, by decide⟩
  ⟨by decide, herr, h.2 herr⟩

/-! ## Rendering, and parsing what was rendered -/

theorem split_join (parts : List String) (sep : Char) (hne : parts ≠ [])
    (hsep : ∀ p ∈ parts, sep ∉ p.data) : Split (Join parts sep) sep = parts := by
  unfold Split Join
  have h : ([sep].intercalate (parts.map String.data)).splitOn sep = parts.map String.data := by
    apply List.splitOn_intercalate
    · intro l hl
      rcases List.mem_map.1 hl with ⟨q, hq, rfl⟩
      exact hsep q hq
    · simpa using hne
  simp only [h, List.map_map]
  have hid : (String.mk ∘ String.data) = id := by
    funext q
    rfl
  rw [hid, List.map_id]

theorem not_mem_join (parts : List String) (sep x : Char) (hx : x ≠ sep)
    (h : ∀ p ∈ parts, x ∉ p.data) : x ∉ (Join parts sep).data := by
  intro hmem
  rcases mem_intercalate_singleton x sep _ hmem with heq | ⟨l, hl, hxl⟩
  · exact hx heq
  · rcases List.mem_map.1 hl with ⟨q, hq, rfl⟩
    exact h q hq hxl

theorem renderControl_eq_join (c : Control) :
    renderControl c = Join [c.Realm, c.URI, Join c.Method '|'] ':' := by
  unfold renderControl
  apply String.ext
  simp [Join, intercalate_cons_cons, List.intercalate]

theorem newControl_renderControl (c : Control) (hMethod : c.Method ≠ [])
    (hRealm : ':' ∉ c.Realm.data) (hURI : ':' ∉ c.URI.data)
    (hm : ∀ m ∈ c.Method, ':' ∉ m.data ∧ '|' ∉ m.data) :
    newControl (renderControl c) = (c, none) := by
  have hsplit : Split (renderControl c) ':' = [c.Realm, c.URI, Join c.Method '|'] := by
    rw [renderControl_eq_join]
    apply split_join _ _ (by simp)
    intro q hq
    simp only [List.mem_cons, List.mem_singleton, List.not_mem_nil, or_false] at hq
    rcases hq with rfl | rfl | rfl
    · exact hRealm
    · exact hURI
    · exact not_mem_join _ _ _ (by decide) (fun m hmem => (hm m hmem).1)
  have hmethods : Split (Join c.Method '|') '|' = c.Method :=
    split_join _ _ hMethod (fun m hmem => (hm m hmem).2)
  unfold newControl
  rw [hsplit]
  simp only [hmethods]

theorem newControlsLoop_render (cs result : Controls)
    (h : ∀ c ∈ cs, newControl (renderControl c) = (c, none)) :
    newControlsLoop (cs.map renderControl) result = (result ++ cs, none) := by
  induction cs generalizing result with
  | nil => simp [newControlsLoop]
  | cons c cs ih =>
    rw [List.map_cons]
    unfold newControlsLoop
    rw [h c (by simp)]
    simp only
    rw [ih _ (fun d hd => h d (List.mem_cons_of_mem _ hd))]
    simp

theorem colon_mem_renderControl (c : Control) : ':' ∈ (renderControl c).data := by
  simp [renderControl]

/-- C7: parsing undoes rendering.  For a non-empty list of rules, each with a
non-empty method list, where no realm, URI or method contains `,` or `:` and
no method contains `|`, `newControls` of the rendered text returns the list
itself, in order, and no error. -/
theorem newControls_renderControls (cs : Controls) (hne : cs ≠ [])
    (hMethod : ∀ c ∈ cs, c.Method ≠ [])
    (hRealm : ∀ c ∈ cs, ',' ∉ c.Realm.data ∧ ':' ∉ c.Realm.data)
    (hURI : ∀ c ∈ cs, ',' ∉ c.URI.data ∧ ':' ∉ c.URI.data)
    (hm : ∀ c ∈ cs, ∀ m ∈ c.Method, ',' ∉ m.data ∧ ':' ∉ m.data ∧ '|' ∉ m.data) :
    newControls (renderControls cs) = (cs, none) := by
  have hcomma : ∀ c ∈ cs, ',' ∉ (renderControl c).data := by
    intro c hc
    rw [renderControl_eq_join]
    apply not_mem_join _ _ _ (by decide)
    intro q hq
    simp only [List.mem_cons, List.mem_singleton, List.not_mem_nil, or_false] at hq
    rcases hq with rfl | rfl | rfl
    · exact (hRealm c hc).1
    · exact (hURI c hc).1
    · exact not_mem_join _ _ _ (by decide) (fun m hmem => (hm c hc m hmem).1)
  have hsplit : Split (renderControls cs) ',' = cs.map renderControl := by
    apply split_join _ _ (by simpa using hne)
    intro q hq
    rcases List.mem_map.1 hq with ⟨c, hc, rfl⟩
    exact hcomma c hc
  have hblank : (Trim (renderControls cs) " ").length ≠ 0 := by
    rw [Ne, trim_space_length_eq_zero_iff]
    intro hall
    obtain ⟨c, tl, rfl⟩ := List.exists_cons_of_ne_nil hne
    have hcolon : ':' ∈ (renderControls (c :: tl)).data := by
      cases tl with
      | nil => simpa [renderControls, Join, List.intercalate] using colon_mem_renderControl c
      | cons d tl =>
        simp only [renderControls, Join, List.map_cons, intercalate_cons_cons]
        exact List.mem_append_left _ (List.mem_append_left _ (colon_mem_renderControl c))
    exact absurd (hall _ hcolon) (by decide)
  have hdef : newControls (renderControls cs) =
      newControlsLoop (Split (renderControls cs) ',') [] := by
    simp [newControls, hblank]
  rw [hdef, hsplit, newControlsLoop_render]
  · simp
  · intro c hc
    exact newControl_renderControl c (hMethod c hc) (hRealm c hc).2 (hURI c hc).2
      (fun m hmem => ⟨(hm c hc m hmem).2.1, (hm c hc m hmem).2.2⟩)

/-- Witness of C7: `"app:/items/.*:GET|POST"` is the rendering of the single
rule with realm `app`, URI `/items/.*` and methods `GET`, `POST`, and parses
back to it. -/
theorem newControls_renderControls_witness :
    renderControls [⟨"app", "/items/.*", ["GET", "POST"]⟩] = "app:/items/.*:GET|POST" ∧
      newControls "app:/items/.*:GET|POST" = ([⟨"app", "/items/.*", ["GET", "POST"]⟩], none) :=
  ⟨by decide,
    newControls_renderControls [⟨"app", "/items/.*", ["GET", "POST"]⟩] (by simp)
      (by simp) (by decide) (by decide) (by decide)⟩

/-! ## Blank ACL strings -/

/-- C8 as stated fails: the string made of one tab consists of whitespace
only, and `newControls` returns an error for it. -/
theorem newControls_tab_error :
    ("\t".data.all Char.isWhitespace = true) ∧
      newControls "\t" =
        ([], some "Invalid control format '\t', it should be realm:uri:method\n") := by
  decide

/-- C8, amended: for an `acl` that is empty or made of space characters
(U+0020) only, `newControls` returns the empty `Controls` and no error, and
`allowed` on it is false for every realm, URI and method. -/
theorem newControls_blank (acl : String) (h : ∀ r ∈ acl.data, r = ' ') :
    newControls acl = ([], none) ∧
      ∀ (G : GoStd) (realm uri method : String),
        Controls.allowed G (newControls acl).1 realm uri method = false := by
  have hlen : (Trim acl " ").length = 0 := (trim_space_length_eq_zero_iff acl).2 h
  have hdef : newControls acl = ([], none) := by
    simp [newControls, hlen]
  refine ⟨hdef, ?_⟩
  intro G realm uri method
  rw [hdef]
  exact allowed_nil G realm uri method

/-- Witness of the amended C8 on a string of three spaces. -/
theorem newControls_blank_witness :
    (∀ r ∈ "   ".data, r = ' ') ∧ newControls "   " = ([], none) ∧
      Controls.allowed asciiStd (newControls "   ").1 "app" "/items" "GET" = false :=
  have h := newControls_blank "   " (by decide)
  ⟨by decide, h.1, h.2 asciiStd "app" "/items" "GET"⟩

/-! ## Method comparison -/

/-- C9 as stated fails: `"GET"` and `"\tGET"` are identical once whitespace
is trimmed and case is folded, yet a rule for `GET` allows the first and not
the second; likewise a rule whose method entry is `"\tGET"` instead of
`"GET"` no longer allows `GET`. -/
theorem allowed_tab_method_differs :
    methodKeySpec "GET" = methodKeySpec "\tGET" ∧
      Controls.allowed asciiStd [⟨"app", "*", ["GET"]⟩] "app" "/items" "GET" = true ∧
      Controls.allowed asciiStd [⟨"app", "*", ["GET"]⟩] "app" "/items" "\tGET" = false ∧
      Controls.allowed asciiStd [⟨"app", "*", ["\tGET"]⟩] "app" "/items" "GET" = false := by
  decide

theorem hasMethod_congr_arg (G : GoStd) (c : Control) (m m' : String)
    (h : ToUpper G (Trim m " ") = ToUpper G (Trim m' " ")) :
    c.hasMethod G m = c.hasMethod G m' := by
  simp only [Control.hasMethod, h]

theorem hasMethod_congr_entry (G : GoStd) (c : Control) (ms ms' : List String)
    (m m' x : String) (h : ToUpper G (Trim m " ") = ToUpper G (Trim m' " ")) :
    Control.hasMethod G { c with Method := ms ++ m :: ms' } x =
      Control.hasMethod G { c with Method := ms ++ m' :: ms' } x := by
  simp only [Control.hasMethod, List.any_append, List.any_cons, h]

/-- C9, amended: two method strings that become identical after removing
leading and trailing space characters (U+0020) and upper-casing with
`strings.ToUpper` get the same answer from `allowed`; and replacing an entry
of a rule's method list by such an equivalent string does not change
`allowed`. -/
theorem allowed_method_congr (G : GoStd) (m m' : String)
    (h : ToUpper G (Trim m " ") = ToUpper G (Trim m' " ")) :
    (∀ (cs : Controls) (realm uri : String),
        Controls.allowed G cs realm uri m = Controls.allowed G cs realm uri m') ∧
      (∀ (before after : Controls) (c : Control) (ms ms' : List String)
          (realm uri method : String),
        Controls.allowed G (before ++ { c with Method := ms ++ m :: ms' } :: after)
            realm uri method =
          Controls.allowed G (before ++ { c with Method := ms ++ m' :: ms' } :: after)
            realm uri method) := by
  constructor
  · intro cs realm uri
    simp only [allowed_eq_any, ruleAllows, hasMethod_congr_arg G _ m m' h]
  · intro before after c ms ms' realm uri method
    simp only [allowed_append, allowed_cons, ruleAllows,
      hasMethod_congr_entry G c ms ms' m m' _ h]

/-- Witness of the amended C9: `" get "` and `"GET"`. -/
theorem allowed_method_congr_witness :
    ToUpper asciiStd (Trim " get " " ") = ToUpper asciiStd (Trim "GET" " ") ∧
      Controls.allowed asciiStd [⟨"app", "/items", ["GET"]⟩] "app" "/items/5" " get " =
        Controls.allowed asciiStd [⟨"app", "/items", ["GET"]⟩] "app" "/items/5" "GET" ∧
      Controls.allowed asciiStd ([] ++ [⟨"app", "/items", [] ++ [" get ", "PUT"]⟩])
          "app" "/items/5" "GET" =
        Controls.allowed asciiStd ([] ++ [⟨"app", "/items", [] ++ ["GET", "PUT"]⟩])
          "app" "/items/5" "GET" :=
  have h := allowed_method_congr asciiStd " get " "GET" (by decide)
  ⟨by decide, h.1 [⟨"app", "/items", ["GET"]⟩] "app" "/items/5",
    h.2 [] [] ⟨"app", "/items", []⟩ [] ["PUT"] "app" "/items/5" "GET"⟩

/-! ## Rules whose pattern does not compile -/

/-- C10 as stated fails: the pattern `*` does not compile, yet the rule with
URI `*` decides: with it the request is allowed, without it the request is
denied. -/
theorem allowed_star_rule_contributes :
    asciiStd.compiles "*" = false ∧
      Controls.allowed asciiStd [⟨"app", "*", ["GET"]⟩] "app" "/items" "GET" = true ∧
      Controls.allowed asciiStd
        (([⟨"app", "*", ["GET"]⟩] : Controls).erase ⟨"app", "*", ["GET"]⟩)
        "app" "/items" "GET" = false := by
  decide

/-- C10, amended: a rule whose URI does not compile and is not the literal
`*` has a false URI condition for every uri, and `allowed` on a collection
holding it equals `allowed` on the collection with it removed. -/
theorem allowed_remove_invalid_pattern (G : GoStd) (c : Control)
    (hbad : G.compiles c.URI = false) (hstar : c.URI ≠ "*") :
    (∀ uri : String, ((regexpMatchString G c.URI uri).1 || c.URI == "*") = false) ∧
      ∀ (before after : Controls) (realm uri method : String),
        Controls.allowed G (before ++ c :: after) realm uri method =
          Controls.allowed G (before ++ after) realm uri method := by
  have huri : ∀ uri : String, ((regexpMatchString G c.URI uri).1 || c.URI == "*") = false := by
    intro uri
    simp [regexpMatchString_fst, hbad, hstar]
  refine ⟨huri, ?_⟩
  intro before after realm uri method
  have hrule : ruleAllows G c realm uri method = false := by
    simp [ruleAllows, huri uri]
  simp [allowed_append, allowed_cons, hrule]

/-- Witness of the amended C10: the pattern `(` does not compile; the rule
carrying it changes nothing before a rule that allows the request. -/
theorem allowed_remove_invalid_pattern_witness :
    asciiStd.compiles "(" = false ∧
      Controls.allowed asciiStd ([] ++ [⟨"app", "(", ["GET"]⟩, ⟨"app", "/items", ["GET"]⟩])
          "app" "/items/5" "GET" =
        Controls.allowed asciiStd ([] ++ [⟨"app", "/items", ["GET"]⟩]) "app" "/items/5" "GET" :=
  ⟨by decide,
    (allowed_remove_invalid_pattern asciiStd ⟨"app", "(", ["GET"]⟩ (by decide) (by decide)).2
      [] [⟨"app", "/items", ["GET"]⟩] "app" "/items/5" "GET"⟩

/-! ## Auxiliary facts about the authentication loop -/

theorem authenticationMiddleware_eq (G : GoStd) (s : Server) (next : Handler) (r : Request) :
    s.AuthenticationMiddleware G next r =
      afterLoop s next r (authLoop G r s.Auth { user := none, matched := false, err := none }) := by
  unfold Server.AuthenticationMiddleware afterLoop
  rfl

theorem regexpMatchString_snd_isSome (G : GoStd) (pattern text : String) :
    (regexpMatchString G pattern text).2.isSome = !G.compiles pattern := by
  unfold regexpMatchString
  by_cases h : G.compiles pattern = true <;> simp [h]

theorem authLoop_skip (G : GoStd) (r : Request) (entry : String × Option Authenticator)
    (rest : List (String × Option Authenticator)) (h : stopsLoop G r entry = false) :
    authLoop G r (entry :: rest) { user := none, matched := false, err := none } =
      authLoop G r rest { user := none, matched := false, err := none } := by
  obtain ⟨urlPattern, authenticate⟩ := entry
  simp only [stopsLoop, Bool.or_eq_false_iff, Bool.not_eq_false'] at h
  simp [authLoop, regexpMatchString, h.1, h.2]

theorem authLoop_stop (G : GoStd) (r : Request) (entry : String × Option Authenticator)
    (rest : List (String × Option Authenticator)) (h : stopsLoop G r entry = true) :
    authLoop G r (entry :: rest) { user := none, matched := false, err := none } =
      stopResult r (G.compiles entry.1) entry := by
  obtain ⟨urlPattern, authenticate⟩ := entry
  by_cases hc : G.compiles urlPattern = true
  · have hm : G.hasMatch urlPattern r.Path = true := by
      simpa [stopsLoop, hc] using h
    cases authenticate with
    | none => simp [authLoop, stopResult, regexpMatchString, hc, hm]
    | some f =>
      cases hf : (f r).1 with
      | none => simp [authLoop, stopResult, regexpMatchString, hc, hm, hf]
      | some user => simp [authLoop, stopResult, regexpMatchString, hc, hm, hf]
  · simp [authLoop, stopResult, regexpMatchString, hc]

/-- The loop stops at the first entry, in visiting order, whose pattern does
not compile or matches the path. -/
theorem authLoop_eq_find (G : GoStd) (r : Request) (entries : List (String × Option Authenticator)) :
    authLoop G r entries { user := none, matched := false, err := none } =
      match entries.find? (stopsLoop G r) with
      | none => LoopResult.exited { user := none, matched := false, err := none } []
      | some entry => stopResult r (G.compiles entry.1) entry := by
  induction entries with
  | nil => simp [authLoop]
  | cons entry rest ih =>
    by_cases h : stopsLoop G r entry = true
    · rw [authLoop_stop G r entry rest h]
      simp [List.find?_cons, h]
    · have h' : stopsLoop G r entry = false := by simpa using h
      rw [authLoop_skip G r entry rest h', ih]
      simp [List.find?_cons, h']

/-! ## The authorisation stage -/

theorem authorisation_of_allowed (G : GoStd) (s : Server) (next : Handler) (r : Request)
    (u : UserPrincipal) (hu : r.User = ContextValue.principal (some u))
    (ha : Controls.allowed G u.Rights s.realm r.RequestURI r.Method = true) :
    s.AuthorisationMiddleware G next r = next r := by
  simp [Server.AuthorisationMiddleware, GetUserPrincipal, Controls.RequestAllowed, hu, ha]

theorem authorisation_of_not_allowed (G : GoStd) (s : Server) (next : Handler) (r : Request)
    (h : ¬ ∃ u, r.User = ContextValue.principal (some u) ∧
      Controls.allowed G u.Rights s.realm r.RequestURI r.Method = true) :
    s.AuthorisationMiddleware G next r = [Event.writeHeader StatusForbidden] := by
  cases hU : r.User with
  | absent => simp [Server.AuthorisationMiddleware, GetUserPrincipal, hU]
  | other => simp [Server.AuthorisationMiddleware, GetUserPrincipal, hU]
  | principal p =>
    cases p with
    | none => simp [Server.AuthorisationMiddleware, GetUserPrincipal, hU]
    | some u =>
      have ha : Controls.allowed G u.Rights s.realm r.RequestURI r.Method = false := by
        cases hall : Controls.allowed G u.Rights s.realm r.RequestURI r.Method with
        | false => rfl
        | true => exact absurd ⟨u, hU, hall⟩ h
      simp [Server.AuthorisationMiddleware, GetUserPrincipal, Controls.RequestAllowed, hU, ha]

theorem next_mem_authorisation (G : GoStd) (s : Server) (r q : Request) :
    Event.next q ∈ s.AuthorisationMiddleware G recordNext r ↔
      q = r ∧ ∃ u, r.User = ContextValue.principal (some u) ∧
        Controls.allowed G u.Rights s.realm r.RequestURI r.Method = true := by
  by_cases h : ∃ u, r.User = ContextValue.principal (some u) ∧
      Controls.allowed G u.Rights s.realm r.RequestURI r.Method = true
  · obtain ⟨u, hu, ha⟩ := h
    rw [authorisation_of_allowed G s recordNext r u hu ha]
    simp only [recordNext, List.mem_singleton, Event.next.injEq]
    exact ⟨fun hq => ⟨hq, u, hu, ha⟩, fun hq => hq.1⟩
  · rw [authorisation_of_not_allowed G s recordNext r h]
    simp only [List.mem_singleton, reduceCtorEq, false_iff]
    exact fun hq => h hq.2

/-- C11 as stated fails: the decision is taken on `r.RequestURI`, not on the
path.  A request for the path `/admin` with the query `debug=1`, from an
identity whose only rule has the pattern `debug=1`, is forwarded although
`allowed` on the path is false. -/
theorem authorisation_decides_on_request_uri :
    Controls.allowed asciiStd [⟨"app", "debug=1", ["GET"]⟩] "app" "/admin" "GET" = false ∧
      Server.AuthorisationMiddleware asciiStd ⟨[], none, "app"⟩ recordNext
          ⟨"GET", "/admin", "/admin?debug=1", "", "curl/8.0",
            ContextValue.principal (some ⟨"guest", [⟨"app", "debug=1", ["GET"]⟩], 0⟩)⟩ =
        [Event.next
          ⟨"GET", "/admin", "/admin?debug=1", "", "curl/8.0",
            ContextValue.principal (some ⟨"guest", [⟨"app", "debug=1", ["GET"]⟩], 0⟩)⟩] := by
  decide

/-- C11, amended: the authorisation stage serves the next handler the request
unchanged exactly when the request context carries an identity whose rights
allow (server realm, `r.RequestURI`, request method); in every other case
(no identity, or rights without a matching rule) it writes status 403 and
does not call the next handler. -/
theorem authorisation_decision (G : GoStd) (s : Server) (r : Request) :
    (∀ (next : Handler) (u : UserPrincipal), r.User = ContextValue.principal (some u) →
        Controls.allowed G u.Rights s.realm r.RequestURI r.Method = true →
        s.AuthorisationMiddleware G next r = next r) ∧
      (∀ next : Handler,
        (¬ ∃ u, r.User = ContextValue.principal (some u) ∧
          Controls.allowed G u.Rights s.realm r.RequestURI r.Method = true) →
        s.AuthorisationMiddleware G next r = [Event.writeHeader 403]) ∧
      (∀ q : Request, Event.next q ∈ s.AuthorisationMiddleware G recordNext r ↔
        q = r ∧ ∃ u, r.User = ContextValue.principal (some u) ∧
          Controls.allowed G u.Rights s.realm r.RequestURI r.Method = true) :=
  ⟨fun next u hu ha => authorisation_of_allowed G s next r u hu ha,
    fun next h => authorisation_of_not_allowed G s next r h,
    fun q => next_mem_authorisation G s r q⟩

/-! ## The authentication stage: pattern dispatch -/

/-- C12 as stated fails: the path matches `/items`, which is bound to an
authenticator that returns no identity, and yet the stage answers 500 when a
pattern that does not compile is visited first, and serves the next handler
(with a nil identity) when a matching pattern without authenticator is visited
first. -/
theorem authentication_reject_depends_on_other_patterns :
    asciiStd.hasMatch "/items" sampleRequest.Path = true ∧
      (rejectWithError sampleRequest).1 = none ∧
      Server.AuthenticationMiddleware asciiStd
          ⟨[("(", none), ("/items", some rejectWithError)], none, "app"⟩
          recordNext sampleRequest =
        [Event.httpError "Authentication Error" 500] ∧
      Server.AuthenticationMiddleware asciiStd
          ⟨[("/it", none), ("/items", some rejectWithError)], none, "app"⟩
          recordNext sampleRequest =
        [Event.next (sampleRequest.WithUser none)] := by
  decide

/-- C12, amended: when every registered pattern compiles, the path matches a
registered pattern bound to an authenticator, and every registered pattern
that matches the path is bound to an authenticator that returns no identity
for the request, the stage invokes one of these authenticators and answers
401 with its error message, or `Unauthorised` when it returned no error; the
next handler is never called. -/
theorem authentication_rejects_without_identity (G : GoStd) (s : Server) (r : Request)
    (p : String) (f : Authenticator)
    (hcompile : ∀ entry ∈ s.Auth, G.compiles entry.1 = true)
    (hreg : (p, some f) ∈ s.Auth) (hmatch : G.hasMatch p r.Path = true)
    (hall : ∀ (q : String) (a : Option Authenticator), (q, a) ∈ s.Auth →
      G.hasMatch q r.Path = true → ∃ g : Authenticator, a = some g ∧ (g r).1 = none) :
    ∃ (q : String) (g : Authenticator),
      (q, some g) ∈ s.Auth ∧ G.hasMatch q r.Path = true ∧ (g r).1 = none ∧
        ∀ next : Handler,
          s.AuthenticationMiddleware G next r =
            [Event.callAuth q,
              Event.httpError (match (g r).2 with | some e => e | none => "Unauthorised")
                401] := by
  have hsome : (s.Auth.find? (stopsLoop G r)).isSome = true := by
    rw [List.find?_isSome]
    exact ⟨(p, some f), hreg, by simp [stopsLoop, hmatch]⟩
  obtain ⟨entry, hfind⟩ := Option.isSome_iff_exists.1 hsome
  have hmem : entry ∈ s.Auth := List.mem_of_find?_eq_some hfind
  have hstop : stopsLoop G r entry = true := List.find?_some hfind
  have hc : G.compiles entry.1 = true := hcompile entry hmem
  have hm : G.hasMatch entry.1 r.Path = true := by
    simpa [stopsLoop, hc] using hstop
  obtain ⟨q, a⟩ := entry
  obtain ⟨g, ha, hg⟩ := hall q a hmem hm
  subst ha
  refine ⟨q, g, hmem, hm, hg, ?_⟩
  intro next
  rw [authenticationMiddleware_eq, authLoop_eq_find, hfind]
  simp only at hc
  simp [stopResult, hc, hg, afterLoop, errMsg, StatusUnauthorized]

/-- Witness of the amended C12: of the two registered patterns only `/items`
matches the path; it is bound to an authenticator that rejects with the error
`bad credentials`. -/
theorem authentication_rejects_without_identity_witness :
    ∃ (q : String) (g : Authenticator),
      (q, some g) ∈ [("/users", some acceptAsGuest), ("/items", some rejectWithError)] ∧
        asciiStd.hasMatch q sampleRequest.Path = true ∧ (g sampleRequest).1 = none ∧
        ∀ next : Handler,
          Server.AuthenticationMiddleware asciiStd
              ⟨[("/users", some acceptAsGuest), ("/items", some rejectWithError)], none, "app"⟩
              next sampleRequest =
            [Event.callAuth q,
              Event.httpError
                (match (g sampleRequest).2 with | some e => e | none => "Unauthorised") 401] :=
  authentication_rejects_without_identity asciiStd
    ⟨[("/users", some acceptAsGuest), ("/items", some rejectWithError)], none, "app"⟩
    sampleRequest "/items" rejectWithError (by decide) (by simp) (by decide)
    (by
      intro q a hq hm
      simp only [List.mem_cons, Prod.mk.injEq, List.mem_nil_iff, or_false] at hq
      rcases hq with ⟨hq, _⟩ | ⟨_, ha⟩
      · rw [hq] at hm
        exact absurd hm (by decide)
      · exact ⟨rejectWithError, ha, rfl⟩)

/-! ## The authentication stage: order of the patterns -/

/-- C13 as stated fails: with two registered patterns that both match the
path, the outcome depends on the order in which the map is visited: the
request is accepted as `guest` in one order and rejected with 401 in the
other. -/
theorem authentication_depends_on_order :
    ([("/it", some rejectWithError), ("/items", some acceptAsGuest)] :
        List (String × Option Authenticator)).Perm
        [("/items", some acceptAsGuest), ("/it", some rejectWithError)] ∧
      Server.AuthenticationMiddleware asciiStd
          ⟨[("/items", some acceptAsGuest), ("/it", some rejectWithError)], none, "app"⟩
          recordNext sampleRequest =
        [Event.callAuth "/items", Event.next (sampleRequest.WithUser (some guest))] ∧
      Server.AuthenticationMiddleware asciiStd
          ⟨[("/it", some rejectWithError), ("/items", some acceptAsGuest)], none, "app"⟩
          recordNext sampleRequest =
        [Event.callAuth "/it", Event.httpError "bad credentials" 401] :=
  ⟨List.Perm.swap _ _ _, by decide, by decide⟩

theorem find_eq_of_perm_of_countP_le_one {α : Type} (p : α → Bool) (l l' : List α)
    (hperm : l'.Perm l) (h : l.countP p ≤ 1) : l'.find? p = l.find? p := by
  rw [← List.filter_head?, ← List.filter_head?]
  have hf : (l'.filter p).Perm (l.filter p) := hperm.filter p
  rw [List.countP_eq_length_filter] at h
  match hl : l.filter p with
  | [] =>
    rw [hl] at hf
    rw [List.perm_nil.1 hf]
  | [a] =>
    rw [hl] at hf
    rw [List.perm_singleton.1 hf]
  | _ :: _ :: _ =>
    rw [hl] at h
    simp at h

/-- C13, amended: when at most one registered pattern matches the path or
fails to compile, the authentication stage does the same (authenticator
invoked, response written, identity attached) for every order in which the
associations are visited. -/
theorem authentication_order_independent (G : GoStd) (s : Server) (r : Request)
    (entries : List (String × Option Authenticator)) (hperm : entries.Perm s.Auth)
    (hone : s.Auth.countP (fun entry => !G.compiles entry.1 || G.hasMatch entry.1 r.Path) ≤ 1) :
    ∀ next : Handler,
      Server.AuthenticationMiddleware G { s with Auth := entries } next r =
        s.AuthenticationMiddleware G next r := by
  intro next
  have hfind : entries.find? (stopsLoop G r) = s.Auth.find? (stopsLoop G r) :=
    find_eq_of_perm_of_countP_le_one (stopsLoop G r) s.Auth entries hperm hone
  rw [authenticationMiddleware_eq, authenticationMiddleware_eq, authLoop_eq_find,
    authLoop_eq_find]
  simp only [hfind]
  rfl

/-- Witness of the amended C13: of the two registered patterns only `/items`
matches the path `/items/5`. -/
theorem authentication_order_independent_witness :
    Server.AuthenticationMiddleware asciiStd
        ⟨[("/users", some rejectWithError), ("/items", some acceptAsGuest)], none, "app"⟩
        recordNext sampleRequest =
      Server.AuthenticationMiddleware asciiStd
        ⟨[("/items", some acceptAsGuest), ("/users", some rejectWithError)], none, "app"⟩
        recordNext sampleRequest :=
  authentication_order_independent asciiStd
    ⟨[("/items", some acceptAsGuest), ("/users", some rejectWithError)], none, "app"⟩
    sampleRequest [("/users", some rejectWithError), ("/items", some acceptAsGuest)]
    (List.Perm.swap _ _ _) (by decide) recordNext

/-! ## The authentication stage: the default fallback -/

theorem authLoop_no_stop (G : GoStd) (r : Request) (entries : List (String × Option Authenticator))
    (h : ∀ entry ∈ entries, G.compiles entry.1 = true ∧ G.hasMatch entry.1 r.Path = false) :
    authLoop G r entries { user := none, matched := false, err := none } =
      LoopResult.exited { user := none, matched := false, err := none } [] := by
  have hfind : entries.find? (stopsLoop G r) = none := by
    rw [List.find?_eq_none]
    intro entry hentry
    simp [stopsLoop, (h entry hentry).1, (h entry hentry).2]
  rw [authLoop_eq_find, hfind]

/-- C14 (the code departs from it): on an `OPTIONS` request that matches no
pattern, with a default authenticator configured, the stage serves the next
handler and then goes on: a client that is not a browser reaches the default
authenticator and gets its 401; a browser without credentials gets the
challenge and status 401. -/
theorem authentication_options_falls_through :
    Server.AuthenticationMiddleware asciiStd ⟨[], some rejectSilently, "app"⟩ recordNext
        { sampleRequest with Method := "OPTIONS" } =
      [Event.next { sampleRequest with Method := "OPTIONS" }, Event.callDefaultAuth,
        Event.httpError "Unauthorised" 401] ∧
      Server.AuthenticationMiddleware asciiStd ⟨[], some rejectSilently, "app"⟩ recordNext
          { chromeRequest with Method := "OPTIONS" } =
        [Event.next { chromeRequest with Method := "OPTIONS" },
          Event.setHeader "WWW-Authenticate" "Basic realm=\"app\"", Event.writeHeader 401] := by
  decide

/-- C15 as stated fails.  With a registered pattern that does not compile the
stage answers 500, not the challenge; and on an `OPTIONS` request the next
handler is served first, so that in front of the authorisation stage the
status of the response is 403. -/
theorem authentication_browser_not_challenged :
    Contains chromeRequest.UserAgent "Chrome" = true ∧
      asciiStd.hasMatch "(" chromeRequest.Path = false ∧
      Server.AuthenticationMiddleware asciiStd ⟨[("(", none)], some acceptAsGuest, "app"⟩
          recordNext chromeRequest =
        [Event.httpError "Authentication Error" 500] ∧
      responseStatus
          (Server.AuthenticationMiddleware asciiStd ⟨[], some acceptAsGuest, "app"⟩
            (Server.AuthorisationMiddleware asciiStd ⟨[], some acceptAsGuest, "app"⟩ recordNext)
            { chromeRequest with Method := "OPTIONS" }) =
        some 403 := by
  decide

/-- C15, amended: for a request whose method is not `OPTIONS`, whose
`User-Agent` contains `Chrome`, whose `Authorization` header is empty and
whose path matches none of the registered patterns, all of which compile,
when a default authenticator is configured: the stage only sets the header
`WWW-Authenticate` to the basic challenge naming the realm and writes status
401; the default authenticator is not invoked. -/
theorem authentication_browser_challenge (G : GoStd) (s : Server) (r : Request)
    (defaultAuth : Authenticator) (hdefault : s.DefaultAuth = some defaultAuth)
    (hpatterns : ∀ entry ∈ s.Auth,
      G.compiles entry.1 = true ∧ G.hasMatch entry.1 r.Path = false)
    (hmethod : r.Method ≠ "OPTIONS") (hauth : r.Authorization = "")
    (hchrome : Contains r.UserAgent "Chrome" = true) :
    ∀ next : Handler,
      s.AuthenticationMiddleware G next r =
        [Event.setHeader "WWW-Authenticate" ("Basic realm=\"" ++ s.realm ++ "\""),
          Event.writeHeader 401] := by
  intro next
  have hbrowser : isBrowser r.UserAgent = true := by
    simp [isBrowser, hchrome]
  rw [authenticationMiddleware_eq, authLoop_no_stop G r s.Auth hpatterns]
  simp [afterLoop, hdefault, MethodOptions, hmethod, hauth, hbrowser, StatusUnauthorized]

/-- Witness of the amended C15: a `GET` from Chrome without credentials, one
registered pattern that does not match. -/
theorem authentication_browser_challenge_witness :
    Server.AuthenticationMiddleware asciiStd
        ⟨[("/users", some rejectWithError)], some acceptAsGuest, "app"⟩ recordNext chromeRequest =
      [Event.setHeader "WWW-Authenticate" "Basic realm=\"app\"", Event.writeHeader 401] :=
  authentication_browser_challenge asciiStd
    ⟨[("/users", some rejectWithError)], some acceptAsGuest, "app"⟩ chromeRequest acceptAsGuest
    rfl (by decide) (by decide) rfl (by decide) recordNext

/-! ## Browser detection -/

theorem contains_iff_infix (s substr : String) :
    Contains s substr = true ↔ substr.data <:+: s.data := by
  unfold Contains
  rw [List.any_eq_true, List.infix_iff_prefix_suffix]
  constructor
  · rintro ⟨t, ht, hp⟩
    exact ⟨t, List.isPrefixOf_iff_prefix.1 hp, (List.mem_tails t s.data).1 ht⟩
  · rintro ⟨t, hp, ht⟩
    exact ⟨t, (List.mem_tails t s.data).2 ht, List.isPrefixOf_iff_prefix.2 hp⟩

/-- C16 as stated fails in both directions: `Opera/9.80` contains `Opera` and
is not taken for a browser; `OP` contains none of the six substrings and is
taken for one. -/
theorem isBrowser_opera_differs :
    "Opera".data <:+: "Opera/9.80".data ∧ isBrowser "Opera/9.80" = false ∧
      isBrowser "OP" = true ∧
      ∀ w ∈ ["Safari", "Opera", "Edge", "MSIE", "Firefox", "Chrome"], ¬ w.data <:+: "OP".data := by
  decide

/-- C16, amended: `isBrowser` is true exactly for the strings that contain one
of `Safari`, `OP`, `Edge`, `MSIE`, `Firefox`, `Chrome`. -/
theorem isBrowser_iff (userAgent : String) :
    isBrowser userAgent = true ↔
      ∃ w ∈ ["Safari", "OP", "Edge", "MSIE", "Firefox", "Chrome"], w.data <:+: userAgent.data := by
  simp only [isBrowser, Bool.or_eq_true, contains_iff_infix, List.mem_cons, List.mem_singleton,
    List.not_mem_nil, or_false, exists_eq_or_imp, exists_eq_left]
  tauto

/-! ## The authentication stage: paths without authentication -/

/-- C17 as stated fails: when another registered pattern does not compile and
is visited first, the stage answers 500 and the next handler is not served,
although the path matches a pattern without authenticator. -/
theorem authentication_exempt_pattern_error :
    asciiStd.hasMatch "/items" sampleRequest.Path = true ∧
      asciiStd.hasMatch "(" sampleRequest.Path = false ∧
      Server.AuthenticationMiddleware asciiStd ⟨[("(", none), ("/items", none)], none, "app"⟩
          recordNext sampleRequest =
        [Event.httpError "Authentication Error" 500] := by
  decide

/-- C17, amended: when every registered pattern compiles and the path is
matched by a pattern without authenticator and by no pattern with one, the
stage does nothing but serve the next handler, once, the request with a nil
identity attached: no authenticator is invoked, not even the default one, and
no rejection is written. -/
theorem authentication_exempt_pattern (G : GoStd) (s : Server) (r : Request) (p : String)
    (hcompile : ∀ entry ∈ s.Auth, G.compiles entry.1 = true)
    (hreg : (p, none) ∈ s.Auth) (hmatch : G.hasMatch p r.Path = true)
    (hbound : ∀ (q : String) (f : Authenticator),
      (q, some f) ∈ s.Auth → G.hasMatch q r.Path = false) :
    ∀ next : Handler, s.AuthenticationMiddleware G next r = next (r.WithUser none) := by
  intro next
  have hsome : (s.Auth.find? (stopsLoop G r)).isSome = true := by
    rw [List.find?_isSome]
    exact ⟨(p, none), hreg, by simp [stopsLoop, hmatch]⟩
  obtain ⟨entry, hfind⟩ := Option.isSome_iff_exists.1 hsome
  have hmem : entry ∈ s.Auth := List.mem_of_find?_eq_some hfind
  have hstop : stopsLoop G r entry = true := List.find?_some hfind
  have hc : G.compiles entry.1 = true := hcompile entry hmem
  have hm : G.hasMatch entry.1 r.Path = true := by
    simpa [stopsLoop, hc] using hstop
  rw [authenticationMiddleware_eq, authLoop_eq_find, hfind]
  obtain ⟨q, a⟩ := entry
  cases a with
  | none => simp [stopResult, hc, afterLoop]
  | some f =>
    have hno := hbound q f hmem
    simp only at hm
    rw [hm] at hno
    exact absurd hno (by simp)

/-- Witness of the amended C17: `/items` is registered without authenticator,
a default authenticator is configured and is not consulted. -/
theorem authentication_exempt_pattern_witness :
    Server.AuthenticationMiddleware asciiStd
        ⟨[("/users", some rejectWithError), ("/items", none)], some rejectWithError, "app"⟩
        recordNext sampleRequest =
      [Event.next (sampleRequest.WithUser none)] :=
  authentication_exempt_pattern asciiStd
    ⟨[("/users", some rejectWithError), ("/items", none)], some rejectWithError, "app"⟩
    sampleRequest "/items" (by decide) (by simp) (by decide)
    (by
      intro q f hq
      simp only [List.mem_cons, Prod.mk.injEq, reduceCtorEq, and_false, List.mem_nil_iff,
        or_false] at hq
      rw [hq.1]
      decide)
    recordNext

/-- C18 as stated fails: with a registered pattern that does not compile, the
stage answers 500 and the next handler is not served. -/
theorem authentication_without_default_error :
    asciiStd.hasMatch "(" sampleRequest.Path = false ∧
      Server.AuthenticationMiddleware asciiStd ⟨[("(", some acceptAsGuest)], none, "app"⟩
          recordNext sampleRequest =
        [Event.httpError "Authentication Error" 500] := by
  decide

/-- C18, amended: when the path matches none of the registered patterns, all
of which compile, and no default authenticator is configured, the stage does
nothing but serve the next handler, once, the request with a nil identity
attached; no rejection is written. -/
theorem authentication_without_default (G : GoStd) (s : Server) (r : Request)
    (hdefault : s.DefaultAuth = none)
    (hpatterns : ∀ entry ∈ s.Auth,
      G.compiles entry.1 = true ∧ G.hasMatch entry.1 r.Path = false) :
    ∀ next : Handler, s.AuthenticationMiddleware G next r = next (r.WithUser none) := by
  intro next
  rw [authenticationMiddleware_eq, authLoop_no_stop G r s.Auth hpatterns]
  simp [afterLoop, hdefault]

/-- Witness of the amended C18: one registered pattern, which does not match,
and no default authenticator. -/
theorem authentication_without_default_witness :
    Server.AuthenticationMiddleware asciiStd ⟨[("/users", some rejectWithError)], none, "app"⟩
        recordNext sampleRequest =
      [Event.next (sampleRequest.WithUser none)] :=
  authentication_without_default asciiStd ⟨[("/users", some rejectWithError)], none, "app"⟩
    sampleRequest rfl (by decide) recordNext

/-! ## `Add` and the decision predicate -/

/-- C19 as stated fails: the candidate with realm `APP` is `equal` (realms
compared without case) to the rule with realm `app` and is not added; the
request in realm `APP` that the candidate allows is denied by the result. -/
theorem allowed_add_drops_realm_spelling :
    Controls.Add asciiStd [⟨"app", "/items", ["GET"]⟩] [⟨"APP", "/items", ["GET"]⟩] =
        [⟨"app", "/items", ["GET"]⟩] ∧
      Controls.allowed asciiStd [⟨"APP", "/items", ["GET"]⟩] "APP" "/items/5" "GET" = true ∧
      Controls.allowed asciiStd
          (Controls.Add asciiStd [⟨"app", "/items", ["GET"]⟩] [⟨"APP", "/items", ["GET"]⟩])
          "APP" "/items/5" "GET" = false := by
  decide

theorem eq_of_equal_of_realm_eq (G : GoStd) (d c : Control) (h : d.equal G c = true)
    (hrealm : d.Realm = c.Realm) : d = c := by
  simp only [Control.equal, equalMethods_eq_decide, Bool.and_eq_true, beq_iff_eq,
    decide_eq_true_eq] at h
  obtain ⟨dr, du, dm⟩ := d
  obtain ⟨cr, cu, cm⟩ := c
  simp only at h hrealm
  rw [hrealm, h.1.2, h.2]

/-- C19, amended: when every candidate that is `equal` to an element of the
collection has the same realm string as that element, `allowed` on the result
of `Add` is `allowed` on the collection or `allowed` on the candidates; in
particular every request allowed by a candidate is allowed by the result. -/
theorem allowed_add (G : GoStd) (cs : Controls) (L : List Control)
    (hrealm : ∀ c ∈ L, ∀ d ∈ cs, d.equal G c = true → d.Realm = c.Realm)
    (realm uri method : String) :
    Controls.allowed G (Controls.Add G cs L) realm uri method =
      (Controls.allowed G cs realm uri method || Controls.allowed G L realm uri method) := by
  rw [add_eq_append_filter, allowed_append, allowed_eq_any, allowed_eq_any, allowed_eq_any,
    Bool.eq_iff_iff]
  simp only [Bool.or_eq_true, List.any_eq_true, List.mem_filter]
  constructor
  · rintro (h | ⟨c, ⟨hc, _⟩, hr⟩)
    · exact Or.inl h
    · exact Or.inr ⟨c, hc, hr⟩
  · rintro (h | ⟨c, hc, hr⟩)
    · exact Or.inl h
    · by_cases hfound : cs.any (fun control => control.equal G c) = true
      · obtain ⟨d, hd, heq⟩ := List.any_eq_true.1 hfound
        have hdc : d = c := eq_of_equal_of_realm_eq G d c heq (hrealm c hc d hd heq)
        exact Or.inl ⟨c, hdc ▸ hd, hr⟩
      · exact Or.inr ⟨c, ⟨hc, by simp [hfound]⟩, hr⟩

/-- Witness of the amended C19: one candidate is already in the collection,
the other is new. -/
theorem allowed_add_witness :
    Controls.allowed asciiStd
        (Controls.Add asciiStd [⟨"app", "/items", ["GET"]⟩]
          [⟨"app", "/items", ["GET"]⟩, ⟨"app", "/users", ["PUT"]⟩])
        "app" "/users/7" "put" =
      (Controls.allowed asciiStd [⟨"app", "/items", ["GET"]⟩] "app" "/users/7" "put" ||
        Controls.allowed asciiStd [⟨"app", "/items", ["GET"]⟩, ⟨"app", "/users", ["PUT"]⟩]
          "app" "/users/7" "put") :=
  allowed_add asciiStd [⟨"app", "/items", ["GET"]⟩]
    [⟨"app", "/items", ["GET"]⟩, ⟨"app", "/users", ["PUT"]⟩] (by decide) "app" "/users/7" "put"

/-! ## Authentication in front of authorisation -/

/-- Where a `next` event can come from when the loop ended without a match:
the `OPTIONS` bypass, the default authenticator, or the path without default
authenticator. -/
theorem next_mem_afterLoop_default (s : Server) (N : Handler) (r q : Request)
    (h : Event.next q ∈
      afterLoop s N r (LoopResult.exited { user := none, matched := false, err := none } [])) :
    Event.next q ∈ N r ∨
      (∃ d u, s.DefaultAuth = some d ∧ (d r).1 = some u ∧
        Event.next q ∈ N (r.WithUser (some u))) ∨
      Event.next q ∈ N (r.WithUser none) := by
  unfold afterLoop at h
  simp only [Option.isNone_none, Bool.not_false, Bool.and_self, if_true, List.nil_append] at h
  cases hd : s.DefaultAuth with
  | none =>
    simp only [hd] at h
    exact Or.inr (Or.inr h)
  | some d =>
    simp only [hd] at h
    split at h
    · simp only [List.mem_append, List.mem_cons, reduceCtorEq, List.mem_nil_iff, or_false] at h
      split at h
      · exact Or.inl h
      · simp at h
    · cases hu : (d r).1 with
      | none =>
        simp only [hu, List.mem_append, List.mem_cons, reduceCtorEq, List.mem_nil_iff,
          or_false] at h
        split at h
        · exact Or.inl h
        · simp at h
      | some u =>
        simp only [hu, List.mem_append, List.mem_cons, reduceCtorEq, List.mem_nil_iff,
          or_false] at h
        rcases h with h | h
        · split at h
          · exact Or.inl h
          · simp at h
        · exact Or.inr (Or.inl ⟨d, u, rfl, hu, h⟩)

theorem next_mem_authorisation_withUser (G : GoStd) (s : Server) (r q : Request)
    (user : Option UserPrincipal)
    (h : Event.next q ∈ s.AuthorisationMiddleware G recordNext (r.WithUser user)) :
    ∃ u, user = some u ∧ q = r.WithUser (some u) ∧
      Controls.allowed G u.Rights s.realm r.RequestURI r.Method = true := by
  obtain ⟨hq, u, hu, ha⟩ := (next_mem_authorisation G s (r.WithUser user) q).1 h
  simp only [Request.WithUser, ContextValue.principal.injEq] at hu
  subst hu
  exact ⟨u, rfl, hq, ha⟩

/-- C20 as stated fails: an `OPTIONS` request that arrives with an identity
already in its context is passed on unchanged by the bypass, and the
authorisation stage serves it to the protected handler, although the only
authenticator returns no identity. -/
theorem protected_handler_reached_by_options :
    (rejectSilently
        ⟨"OPTIONS", "/items/5", "/items/5", "", "curl/8.0",
          ContextValue.principal (some ⟨"admin", [⟨"*", "*", ["*"]⟩], 0⟩)⟩).1 = none ∧
      Server.AuthenticationMiddleware asciiStd ⟨[], some rejectSilently, "app"⟩
          (Server.AuthorisationMiddleware asciiStd ⟨[], some rejectSilently, "app"⟩ recordNext)
          ⟨"OPTIONS", "/items/5", "/items/5", "", "curl/8.0",
            ContextValue.principal (some ⟨"admin", [⟨"*", "*", ["*"]⟩], 0⟩)⟩ =
        [Event.next
            ⟨"OPTIONS", "/items/5", "/items/5", "", "curl/8.0",
              ContextValue.principal (some ⟨"admin", [⟨"*", "*", ["*"]⟩], 0⟩)⟩,
          Event.callDefaultAuth, Event.httpError "Unauthorised" 401] := by
  decide

/-- C20, amended: for a request that arrives without an identity in its
context, with the authentication stage in front of the authorisation stage,
the protected handler is served only a request to which the identity returned
by an authenticator (registered or default) for this request is attached, and
only when the rights of that identity allow (server realm, request URI,
request method). -/
theorem protected_handler_requires_identity (G : GoStd) (s : Server) (r q : Request)
    (harrive : ∀ u, r.User ≠ ContextValue.principal (some u))
    (hserved : Event.next q ∈
      s.AuthenticationMiddleware G (s.AuthorisationMiddleware G recordNext) r) :
    ∃ (f : Authenticator) (u : UserPrincipal),
      ((∃ p, (p, some f) ∈ s.Auth) ∨ s.DefaultAuth = some f) ∧
        (f r).1 = some u ∧ q = r.WithUser (some u) ∧
        Controls.allowed G u.Rights s.realm r.RequestURI r.Method = true := by
  have hplain : Event.next q ∉ s.AuthorisationMiddleware G recordNext r := by
    intro h
    obtain ⟨_, u, hu, _⟩ := (next_mem_authorisation G s r q).1 h
    exact harrive u hu
  have hnil : Event.next q ∉ s.AuthorisationMiddleware G recordNext (r.WithUser none) := by
    intro h
    obtain ⟨u, hu, _⟩ := next_mem_authorisation_withUser G s r q none h
    exact absurd hu (by simp)
  rw [authenticationMiddleware_eq, authLoop_eq_find] at hserved
  cases hfind : s.Auth.find? (stopsLoop G r) with
  | none =>
    rw [hfind] at hserved
    rcases next_mem_afterLoop_default s _ r q hserved with h | ⟨d, u, hd, hu, h⟩ | h
    · exact absurd h hplain
    · obtain ⟨u', hu', hq, ha⟩ := next_mem_authorisation_withUser G s r q (some u) h
      cases hu'
      exact ⟨d, u, Or.inr hd, hu, hq, ha⟩
    · exact absurd h hnil
  | some entry =>
    rw [hfind] at hserved
    have hmem : entry ∈ s.Auth := List.mem_of_find?_eq_some hfind
    obtain ⟨p, a⟩ := entry
    simp only [stopResult] at hserved
    by_cases hc : G.compiles p = true
    · simp only [hc, Bool.not_true, Bool.false_eq_true, if_false] at hserved
      cases a with
      | none =>
        simp only [afterLoop, Option.isNone_none, Bool.not_true, Bool.and_false,
          Bool.false_eq_true, if_false, List.nil_append] at hserved
        exact absurd hserved hnil
      | some f =>
        simp only at hserved
        cases hu : (f r).1 with
        | none => simp [hu, afterLoop] at hserved
        | some u =>
          simp only [hu, afterLoop, Option.isNone_some, Bool.false_and, Bool.false_eq_true,
            if_false, List.mem_append, List.mem_cons, reduceCtorEq, List.mem_nil_iff,
            or_false, false_or] at hserved
          obtain ⟨u', hu', hq, ha⟩ := next_mem_authorisation_withUser G s r q (some u) hserved
          cases hu'
          exact ⟨f, u, Or.inl ⟨p, hmem⟩, hu, hq, ha⟩
    · simp [hc, afterLoop] at hserved

/-- Witness of the amended C20: `/items` is bound to an authenticator that
returns `guest`, whose rights allow the request. -/
theorem protected_handler_requires_identity_witness :
    ∃ (f : Authenticator) (u : UserPrincipal),
      ((∃ p, (p, some f) ∈ [("/items", some acceptAsGuest)]) ∨ none = some f) ∧
        (f sampleRequest).1 = some u ∧
        sampleRequest.WithUser (some guest) = sampleRequest.WithUser (some u) ∧
        Controls.allowed asciiStd u.Rights "app" sampleRequest.RequestURI
          sampleRequest.Method = true :=
  protected_handler_requires_identity asciiStd ⟨[("/items", some acceptAsGuest)], none, "app"⟩
    sampleRequest (sampleRequest.WithUser (some guest))
    (fun u h => ContextValue.noConfusion h) (by decide)

end Http
